import Mathlib

/-!
Verification of the `satdist` core (distance engine and satellite fetch
pipeline) against its natural-language specification.

The Python floating-point arithmetic is embedded over the real numbers `ℝ`;
machine integers are embedded as `ℤ`.  Fallible code (functions that raise
`ValueError`, network operations) is embedded as `Option`/`Except` values.
Images are modelled by their pixel dimensions, which is the level of detail
the verified properties are about; network responses are supplied by an
explicit environment argument.
-/

namespace Satdist

noncomputable section

/-- Degrees-to-radians conversion, `math.radians` in the source. -/
def radians (x : ℝ) : ℝ := x * Real.pi / 180

/-- Python 3 `round` on a real argument: round half to even, returning an
integer. -/
def pyRound (x : ℝ) : ℤ :=
  if x - ⌊x⌋ < 1 / 2 then ⌊x⌋
  else if (1 : ℝ) / 2 < x - ⌊x⌋ then ⌊x⌋ + 1
  else if Even ⌊x⌋ then ⌊x⌋ else ⌊x⌋ + 1

/-- Python `math.atan2 y x`: the angle of the point `(x, y)`, in `(-π, π]`. -/
def atan2 (y x : ℝ) : ℝ :=
  if 0 < x then Real.arctan (y / x)
  else if x < 0 then
    (if 0 ≤ y then Real.arctan (y / x) + Real.pi else Real.arctan (y / x) - Real.pi)
  else if 0 < y then Real.pi / 2
  else if y < 0 then -(Real.pi / 2)
  else 0

/-- Constant `EARTH_RADIUS_M` from `distance.py`. -/
def EARTH_RADIUS_M : ℝ := 6371008.8

/-- The intermediate quantity `a` computed by `haversine_m`
(`distance.py`, line 14). -/
def haversineA (lat1 lon1 lat2 lon2 : ℝ) : ℝ :=
  let phi1 := radians lat1
  let phi2 := radians lat2
  let dphi := phi2 - phi1
  let dlmb := radians (lon2 - lon1)
  Real.sin (dphi / 2) ^ 2 + Real.cos phi1 * Real.cos phi2 * Real.sin (dlmb / 2) ^ 2

/-- Function `haversine_m` from `distance.py`: great-circle distance in meters. -/
def haversine_m (lat1 lon1 lat2 lon2 : ℝ) : ℝ :=
  let a := haversineA lat1 lon1 lat2 lon2
  let c := 2 * atan2 (Real.sqrt a) (Real.sqrt (max 0 (1 - a)))
  EARTH_RADIUS_M * c

/-- Function `pixel_to_lonlat` from `distance.py`.  The `ValueError` raises are
embedded as `none`. -/
def pixel_to_lonlat (x y : ℝ) (width height : ℤ) (south west north east : ℝ) :
    Option (ℝ × ℝ) :=
  if width ≤ 0 ∨ height ≤ 0 then none
  else if ¬(south < north ∧ west < east) then none
  else
    let u := x / (width : ℝ)
    let v := y / (height : ℝ)
    some (west + (east - west) * u, north - (north - south) * v)

/-- Function `distance_between_image_pixels_m` from `distance.py`: map both pixel
points through `pixel_to_lonlat`, then take the haversine distance. -/
def distance_between_image_pixels_m (x1 y1 x2 y2 : ℝ) (width height : ℤ)
    (south west north east : ℝ) : Option ℝ :=
  match pixel_to_lonlat x1 y1 width height south west north east,
        pixel_to_lonlat x2 y2 width height south west north east with
  | some (lon1, lat1), some (lon2, lat2) => some (haversine_m lat1 lon1 lat2 lon2)
  | _, _ => none

/-- Function `meters_per_pixel_at_center` from `distance.py`.  Note: the source
validates only `width`/`height`; it never checks the bounding box. -/
def meters_per_pixel_at_center (width height : ℤ) (south west north east : ℝ) :
    Option (ℝ × ℝ) :=
  if width ≤ 0 ∨ height ≤ 0 then none
  else
    let lat_c := (south + north) / 2
    let m_per_deg_lat := 111132.92 - 559.82 * Real.cos (2 * radians lat_c)
      + 1.175 * Real.cos (4 * radians lat_c) - 0.0023 * Real.cos (6 * radians lat_c)
    let m_per_deg_lon := 111412.84 * Real.cos (radians lat_c)
      - 93.5 * Real.cos (3 * radians lat_c) + 0.118 * Real.cos (5 * radians lat_c)
    let dx_deg := (east - west) / (width : ℝ)
    let dy_deg := (north - south) / (height : ℝ)
    some (m_per_deg_lon * dx_deg, m_per_deg_lat * dy_deg)

/-- Function `pick_zoom_for_bbox` from `fetch.py`: choose the tile-pyramid zoom for a
bbox and a target pixel dimension. -/
def pick_zoom_for_bbox (south west north east : ℝ) (target_px : ℤ) : ℤ :=
  let lat := (south + north) / 2
  let cos_lat := Real.cos (radians lat)
  let width_m := max 1e-6 ((east - west) * 111320 * cos_lat)
  let mpp_target := max 0.01 (width_m / (target_px : ℝ))
  let z_float := Real.logb 2 (max 1e-9 (156543.03392 * cos_lat / mpp_target))
  min 19 (max 0 (pyRound z_float))

/-- Function `lonlat_to_global_px` from `fetch.py`: global pixel coordinates of a
lon/lat at zoom `z` (256-pixel tiles), with the Mercator latitude clamp. -/
def lonlat_to_global_px (lon lat : ℝ) (z : ℕ) : ℝ × ℝ :=
  let lat1 := max (min lat 85.05112878) (-85.05112878)
  let n : ℝ := 2 ^ z
  let x := (lon + 180) / 360
  let lat_rad := radians lat1
  let y := (1 - Real.log (Real.tan lat_rad + 1 / Real.cos lat_rad) / Real.pi) / 2
  (x * n * 256, y * n * 256)

/-- Helper `lon_to_xtile` (inner function of `stitch_tiles` in `fetch.py`):
fractional tile X coordinate of a longitude. -/
def lon_to_xtile (lon : ℝ) (z : ℕ) : ℝ := (lon + 180) / 360 * 2 ^ z

/-- Helper `lat_to_ytile` (inner function of `stitch_tiles` in `fetch.py`):
fractional tile Y coordinate of a latitude, clamped to the Mercator range. -/
def lat_to_ytile (lat : ℝ) (z : ℕ) : ℝ :=
  let lat1 := max (min lat 85.05112878) (-85.05112878)
  let lat_rad := radians lat1
  (1 - Real.log (Real.tan lat_rad + 1 / Real.cos lat_rad) / Real.pi) / 2 * 2 ^ z

/-- Integer tile X lower bound of `stitch_tiles`: `x_min = floor(lon_to_xtile west z)`. -/
def stitchXMin (west : ℝ) (z : ℕ) : ℤ := ⌊lon_to_xtile west z⌋

/-- Integer tile X upper bound of `stitch_tiles`: `x_max = floor(lon_to_xtile east z)`. -/
def stitchXMax (east : ℝ) (z : ℕ) : ℤ := ⌊lon_to_xtile east z⌋

/-- Integer tile Y lower bound of `stitch_tiles`: `y_min = floor(lat_to_ytile north z)`. -/
def stitchYMin (north : ℝ) (z : ℕ) : ℤ := ⌊lat_to_ytile north z⌋

/-- Integer tile Y upper bound of `stitch_tiles`: `y_max = floor(lat_to_ytile south z)`. -/
def stitchYMax (south : ℝ) (z : ℕ) : ℤ := ⌊lat_to_ytile south z⌋

/-- Composite canvas width of `stitch_tiles`: `tiles_x * 256`. -/
def stitchCanvasW (west east : ℝ) (z : ℕ) : ℤ :=
  (stitchXMax east z - stitchXMin west z + 1) * 256

/-- Composite canvas height of `stitch_tiles`: `tiles_y * 256`. -/
def stitchCanvasH (south north : ℝ) (z : ℕ) : ℤ :=
  (stitchYMax south z - stitchYMin north z + 1) * 256

/-- The clamped crop rectangle `(left, top, right, bottom)` computed by
`stitch_tiles` (`fetch.py`, lines 126-136): corner global pixels, rounded,
shifted by the canvas origin, then clamped to the canvas. -/
def stitchCropRect (south west north east : ℝ) (z : ℕ) : ℤ × ℤ × ℤ × ℤ :=
  let wn := lonlat_to_global_px west north z
  let es := lonlat_to_global_px east south z
  let left0 := pyRound (wn.1 - stitchXMin west z * 256)
  let top0 := pyRound (wn.2 - stitchYMin north z * 256)
  let right0 := pyRound (es.1 - stitchXMin west z * 256)
  let bottom0 := pyRound (es.2 - stitchYMin north z * 256)
  let cw := stitchCanvasW west east z
  let ch := stitchCanvasH south north z
  let left := max 0 (min (cw - 1) left0)
  let top := max 0 (min (ch - 1) top0)
  let right := max (left + 1) (min cw right0)
  let bottom := max (top + 1) (min ch bottom0)
  (left, top, right, bottom)

/-- An image, modelled by its pixel dimensions. -/
structure Img where
  w : ℤ
  h : ℤ
  deriving DecidableEq, Repr

/-- A tile-service environment: whether fetching tile `(z, x, y)` succeeds
on some mirror.  Only success matters for the verified properties; every
successful tile is pasted into a fixed 256-pixel grid slot. -/
def TileEnv : Type := ℕ → ℤ → ℤ → Bool

/-- Function `stitch_tiles` from `fetch.py`, at the image-dimension level of detail:
pick the zoom, compute the tile range, fetch every tile in the range (an
exception propagates if any tile fails on all mirrors), composite, crop to
the clamped rectangle, and resize to `(width, height)` whenever the crop
dimensions differ from the request. -/
def stitch_tiles (env : TileEnv) (south west north east : ℝ) (width height : ℤ) :
    Except Unit Img :=
  let z := (pick_zoom_for_bbox south west north east (max width height)).toNat
  if ∀ tx ∈ Finset.Icc (stitchXMin west z) (stitchXMax east z),
     ∀ ty ∈ Finset.Icc (stitchYMin north z) (stitchYMax south z),
       env z tx ty = true then
    let r := stitchCropRect south west north east z
    let cropped : Img := ⟨r.2.2.1 - r.1, r.2.2.2 - r.2.1⟩
    if cropped.w ≠ width ∨ cropped.h ≠ height then Except.ok ⟨width, height⟩
    else Except.ok cropped
  else Except.error ()

/-- The zoom formula exactly as the specification words it (for comparison
with `pick_zoom_for_bbox`): `round(log2(156543.03392·cos(lat_mid)/mpp_target))`
clamped to `[0, 19]`, with `mpp_target = max(0.01, Δlon·111320·cos(lat_mid)/target_px)`;
the spec's sentence omits the source's two inner guard clamps. -/
def zoomSpecFormula (south west north east : ℝ) (target_px : ℤ) : ℤ :=
  let lat := (south + north) / 2
  let cos_lat := Real.cos (radians lat)
  let mpp_target := max 0.01 ((east - west) * 111320 * cos_lat / (target_px : ℝ))
  min 19 (max 0 (pyRound (Real.logb 2 (156543.03392 * cos_lat / mpp_target))))

end

/-- One mirror's answer to a direct-export request: a transport failure, a
non-image response, or raw image bytes (modelled by the image they decode
to). -/
inductive ExportResp where
  | failure : ExportResp
  | nonImage : ExportResp
  | image : Img → ExportResp
  deriving DecidableEq

/-- Function `try_arcgis_export` from `fetch.py`: walk the mirror list in order;
skip transport failures and non-image responses; return the first image
response's bytes; `none` when every mirror is exhausted without an image. -/
def try_arcgis_export : List ExportResp → Option Img
  | [] => none
  | ExportResp.image i :: _ => some i
  | ExportResp.failure :: rest => try_arcgis_export rest
  | ExportResp.nonImage :: rest => try_arcgis_export rest

noncomputable section

/-- Function `fetch_satellite_bbox` from `fetch.py`: try the direct export first and
fall back to tile stitching exactly when the export returned `None`. -/
def fetch_satellite_bbox (resps : List ExportResp) (env : TileEnv)
    (south west north east : ℝ) (width height : ℤ) : Except Unit Img :=
  match try_arcgis_export resps with
  | some data => Except.ok data
  | none => stitch_tiles env south west north east width height

/-- The fetch request the CLI hands to `save_satellite_bbox`. -/
structure FetchCall where
  south : ℝ
  west : ℝ
  north : ℝ
  east : ℝ
  width : ℤ
  height : ℤ

/-- Function `main` from `fetch_satellite_bbox.py` (the CLI wrapper), up to the
point where it calls `save_satellite_bbox`: an out-of-order bbox exits with
code 2 before any fetch; width and height are clamped into `[1, 4096]`. -/
def cliMain (south west north east : ℝ) (width height : ℤ) : Except ℤ FetchCall :=
  if ¬(south < north ∧ west < east) then Except.error 2
  else Except.ok ⟨south, west, north, east,
    max 1 (min 4096 width), max 1 (min 4096 height)⟩

end

/-! ### Helper lemmas -/

theorem pyRound_ge_floor (x : ℝ) : ⌊x⌋ ≤ pyRound x := by
  unfold pyRound
  split_ifs <;> omega

theorem pyRound_le_floor_add_one (x : ℝ) : pyRound x ≤ ⌊x⌋ + 1 := by
  unfold pyRound
  split_ifs <;> omega

theorem pixel_to_lonlat_isSome_iff (x y : ℝ) (w h : ℤ) (s we n e : ℝ) :
    (pixel_to_lonlat x y w h s we n e).isSome ↔ 0 < w ∧ 0 < h ∧ (s < n ∧ we < e) := by
  unfold pixel_to_lonlat
  by_cases h1 : w ≤ 0 ∨ h ≤ 0
  · rw [if_pos h1]
    simp only [Option.isSome_none, Bool.false_eq_true, false_iff]
    rintro ⟨hw, hh, -⟩
    rcases h1 with h1 | h1 <;> omega
  · rw [if_neg h1]
    by_cases h2 : s < n ∧ we < e
    · rw [if_neg (not_not_intro h2)]
      simp only [Option.isSome_some, true_iff]
      exact ⟨not_le.mp (not_or.mp h1).1, not_le.mp (not_or.mp h1).2, h2⟩
    · rw [if_pos h2]
      simp only [Option.isSome_none, Bool.false_eq_true, false_iff]
      rintro ⟨-, -, hb⟩
      exact h2 hb

theorem distance_between_image_pixels_m_isSome_iff (x1 y1 x2 y2 : ℝ) (w h : ℤ)
    (s we n e : ℝ) :
    (distance_between_image_pixels_m x1 y1 x2 y2 w h s we n e).isSome ↔
      0 < w ∧ 0 < h ∧ (s < n ∧ we < e) := by
  have h1 := pixel_to_lonlat_isSome_iff x1 y1 w h s we n e
  have h2 := pixel_to_lonlat_isSome_iff x2 y2 w h s we n e
  cases e1 : pixel_to_lonlat x1 y1 w h s we n e with
  | none =>
      rw [e1] at h1
      simp only [Option.isSome_none, Bool.false_eq_true, false_iff] at h1
      cases e2 : pixel_to_lonlat x2 y2 w h s we n e with
      | none => simp [distance_between_image_pixels_m, e1, e2, h1]
      | some p2 =>
          obtain ⟨l2, la2⟩ := p2
          simp [distance_between_image_pixels_m, e1, e2, h1]
  | some p1 =>
      obtain ⟨l1, la1⟩ := p1
      rw [e1] at h1
      simp only [Option.isSome_some, true_iff] at h1
      cases e2 : pixel_to_lonlat x2 y2 w h s we n e with
      | none =>
          rw [e2] at h2
          simp only [Option.isSome_none, Bool.false_eq_true, false_iff] at h2
          simp [distance_between_image_pixels_m, e1, e2, h2]
      | some p2 =>
          obtain ⟨l2, la2⟩ := p2
          simp [distance_between_image_pixels_m, e1, e2, h1]

theorem meters_per_pixel_at_center_isSome_iff (w h : ℤ) (s we n e : ℝ) :
    (meters_per_pixel_at_center w h s we n e).isSome ↔ 0 < w ∧ 0 < h := by
  unfold meters_per_pixel_at_center
  split_ifs with h1
  · simp only [Option.isSome_none, Bool.false_eq_true, false_iff]
    rintro ⟨hw, hh⟩
    rcases h1 with h1 | h1 <;> omega
  · simp only [Option.isSome_some, true_iff]
    exact ⟨not_le.mp (not_or.mp h1).1, not_le.mp (not_or.mp h1).2⟩

theorem sin_half_sq (x : ℝ) : Real.sin (x / 2) ^ 2 = (1 - Real.cos x) / 2 := by
  have h := Real.cos_two_mul (x / 2)
  have h2 : 2 * (x / 2) = x := by ring
  rw [h2] at h
  have h3 := Real.sin_sq_add_cos_sq (x / 2)
  linarith

theorem haversineA_mem_Icc (lat1 lon1 lat2 lon2 : ℝ) :
    0 ≤ haversineA lat1 lon1 lat2 lon2 ∧ haversineA lat1 lon1 lat2 lon2 ≤ 1 := by
  unfold haversineA
  simp only [sin_half_sq]
  set p1 := radians lat1 with hp1
  set p2 := radians lat2 with hp2
  set d := radians (lon2 - lon1) with hd
  have hsub : Real.cos (p2 - p1) = Real.cos p2 * Real.cos p1 + Real.sin p2 * Real.sin p1 :=
    Real.cos_sub p2 p1
  have hadd : Real.cos (p2 + p1) = Real.cos p2 * Real.cos p1 - Real.sin p2 * Real.sin p1 :=
    Real.cos_add p2 p1
  have h1 : Real.cos (p2 - p1) ≤ 1 := Real.cos_le_one _
  have h2 : -1 ≤ Real.cos (p2 - p1) := Real.neg_one_le_cos _
  have h3 : Real.cos (p2 + p1) ≤ 1 := Real.cos_le_one _
  have h4 : -1 ≤ Real.cos (p2 + p1) := Real.neg_one_le_cos _
  have h5 : Real.cos d ≤ 1 := Real.cos_le_one _
  have h6 : -1 ≤ Real.cos d := Real.neg_one_le_cos _
  constructor
  · nlinarith [mul_nonneg (by linarith : (0:ℝ) ≤ 1 - Real.cos (p2 - p1))
        (by linarith : (0:ℝ) ≤ 1 + Real.cos d),
      mul_nonneg (by linarith : (0:ℝ) ≤ 1 + Real.cos (p2 + p1))
        (by linarith : (0:ℝ) ≤ 1 - Real.cos d)]
  · nlinarith [mul_nonneg (by linarith : (0:ℝ) ≤ 1 + Real.cos (p2 - p1))
        (by linarith : (0:ℝ) ≤ 1 + Real.cos d),
      mul_nonneg (by linarith : (0:ℝ) ≤ 1 - Real.cos (p2 + p1))
        (by linarith : (0:ℝ) ≤ 1 - Real.cos d)]

theorem arctan_nonneg_of_nonneg {x : ℝ} (hx : 0 ≤ x) : 0 ≤ Real.arctan x := by
  have := Real.arctan_strictMono.monotone hx
  rwa [Real.arctan_zero] at this

theorem atan2_mem_of_nonneg {y x : ℝ} (hy : 0 ≤ y) (hx : 0 ≤ x) :
    0 ≤ atan2 y x ∧ atan2 y x ≤ Real.pi / 2 := by
  unfold atan2
  by_cases h1 : 0 < x
  · rw [if_pos h1]
    exact ⟨arctan_nonneg_of_nonneg (div_nonneg hy hx),
      (Real.arctan_lt_pi_div_two _).le⟩
  · rw [if_neg h1, if_neg (not_lt.mpr hx)]
    by_cases h2 : 0 < y
    · rw [if_pos h2]
      exact ⟨by positivity, le_refl _⟩
    · rw [if_neg h2, if_neg (not_lt.mpr hy)]
      exact ⟨le_refl _, by positivity⟩

theorem atan2_one_zero : atan2 1 0 = Real.pi / 2 := by
  unfold atan2
  rw [if_neg (lt_irrefl 0), if_neg (lt_irrefl 0), if_pos one_pos]

theorem atan2_sqrt_mono {a b : ℝ} (ha : 0 ≤ a) (hab : a ≤ b) (hb : b ≤ 1) :
    atan2 (Real.sqrt a) (Real.sqrt (max 0 (1 - a))) ≤
    atan2 (Real.sqrt b) (Real.sqrt (max 0 (1 - b))) := by
  rw [max_eq_right (by linarith : (0:ℝ) ≤ 1 - a),
    max_eq_right (by linarith : (0:ℝ) ≤ 1 - b)]
  rcases eq_or_lt_of_le hb with hb1 | hb1
  · rw [hb1, show (1:ℝ) - 1 = 0 by norm_num, Real.sqrt_zero, Real.sqrt_one,
      atan2_one_zero]
    exact (atan2_mem_of_nonneg (Real.sqrt_nonneg a)
      (Real.sqrt_nonneg (1 - a))).2
  · have h1a : 0 < 1 - a := by linarith [hab.trans_lt hb1]
    have h1b : 0 < 1 - b := by linarith
    have hsa : 0 < Real.sqrt (1 - a) := Real.sqrt_pos.mpr h1a
    have hsb : 0 < Real.sqrt (1 - b) := Real.sqrt_pos.mpr h1b
    unfold atan2
    rw [if_pos hsa, if_pos hsb]
    apply Real.arctan_strictMono.monotone
    exact div_le_div (Real.sqrt_nonneg b) (Real.sqrt_le_sqrt hab) hsb
      (Real.sqrt_le_sqrt (by linarith))

theorem haversine_m_le_of_A_le {lat1 lon1 lat2 lon2 lat3 lon3 lat4 lon4 : ℝ}
    (hle : haversineA lat1 lon1 lat2 lon2 ≤ haversineA lat3 lon3 lat4 lon4)
    (hub : haversineA lat3 lon3 lat4 lon4 ≤ 1) :
    haversine_m lat1 lon1 lat2 lon2 ≤ haversine_m lat3 lon3 lat4 lon4 := by
  unfold haversine_m
  dsimp only
  have h0 := (haversineA_mem_Icc lat1 lon1 lat2 lon2).1
  have hat := atan2_sqrt_mono h0 hle hub
  have hR : (0:ℝ) < EARTH_RADIUS_M := by unfold EARTH_RADIUS_M; norm_num
  have := mul_le_mul_of_nonneg_left (by linarith : 2 * atan2
      (Real.sqrt (haversineA lat1 lon1 lat2 lon2))
      (Real.sqrt (max 0 (1 - haversineA lat1 lon1 lat2 lon2))) ≤ 2 * atan2
      (Real.sqrt (haversineA lat3 lon3 lat4 lon4))
      (Real.sqrt (max 0 (1 - haversineA lat3 lon3 lat4 lon4)))) hR.le
  exact this

theorem haversineA_same_lat (L lonA lonB : ℝ) :
    haversineA L lonA L lonB =
      Real.cos (radians L) ^ 2 * Real.sin (radians (lonB - lonA) / 2) ^ 2 := by
  unfold haversineA
  dsimp only
  rw [sub_self, zero_div, Real.sin_zero]
  ring

theorem haversineA_same_lon (latA latB lon : ℝ) :
    haversineA latA lon latB lon =
      Real.sin ((radians latB - radians latA) / 2) ^ 2 := by
  unfold haversineA
  dsimp only
  rw [sub_self, show radians 0 = 0 by unfold radians; ring, zero_div,
    Real.sin_zero]
  ring

theorem sin_sq_le_sin_sq {u v : ℝ} (h : |u| ≤ |v|) (hv : |v| ≤ Real.pi / 2) :
    Real.sin u ^ 2 ≤ Real.sin v ^ 2 := by
  have hpi := Real.pi_pos
  have h1 : Real.sin |u| ≤ Real.sin |v| := by
    apply Real.strictMonoOn_sin.monotoneOn
      ⟨by linarith [abs_nonneg u], by linarith [h.trans hv]⟩
      ⟨by linarith [abs_nonneg v], hv⟩ h
  have h2 : 0 ≤ Real.sin |u| :=
    Real.sin_nonneg_of_nonneg_of_le_pi (abs_nonneg _) (by linarith [h.trans hv])
  have h3 : Real.sin |u| ^ 2 ≤ Real.sin |v| ^ 2 := by nlinarith
  have h4 : ∀ x : ℝ, Real.sin |x| ^ 2 = Real.sin x ^ 2 := by
    intro x
    rcases abs_cases x with ⟨hx, -⟩ | ⟨hx, -⟩
    · rw [hx]
    · rw [hx, Real.sin_neg]
      ring
  rw [h4 u, h4 v] at h3
  exact h3

theorem pixel_to_lonlat_eq_of_valid {w h : ℤ} {s we n e : ℝ} (x y : ℝ)
    (hw : 0 < w) (hh : 0 < h) (hsn : s < n) (hwe : we < e) :
    pixel_to_lonlat x y w h s we n e =
      some (we + (e - we) * (x / (w:ℝ)), n - (n - s) * (y / (h:ℝ))) := by
  unfold pixel_to_lonlat
  rw [if_neg (by push_neg; exact ⟨hw, hh⟩ : ¬(w ≤ 0 ∨ h ≤ 0)),
    if_neg (not_not_intro ⟨hsn, hwe⟩)]

theorem distance_eq_of_valid {w h : ℤ} {s we n e : ℝ} (x1 y1 x2 y2 : ℝ)
    (hw : 0 < w) (hh : 0 < h) (hsn : s < n) (hwe : we < e) :
    distance_between_image_pixels_m x1 y1 x2 y2 w h s we n e =
      some (haversine_m (n - (n - s) * (y1 / (h:ℝ))) (we + (e - we) * (x1 / (w:ℝ)))
        (n - (n - s) * (y2 / (h:ℝ))) (we + (e - we) * (x2 / (w:ℝ)))) := by
  unfold distance_between_image_pixels_m
  rw [pixel_to_lonlat_eq_of_valid x1 y1 hw hh hsn hwe,
    pixel_to_lonlat_eq_of_valid x2 y2 hw hh hsn hwe]

/-! ### Claim C10 -/

/-- C10: `haversine_m` is total and bounded for all real inputs: the
intermediate `a` always lies in `[0, 1]` (so both square roots are taken of
non-negative arguments), and the returned distance lies in
`[0, π · 6371008.8]` meters. -/
theorem C10_haversine_total_bounded (lat1 lon1 lat2 lon2 : ℝ) :
    0 ≤ haversineA lat1 lon1 lat2 lon2 ∧ haversineA lat1 lon1 lat2 lon2 ≤ 1 ∧
    0 ≤ haversine_m lat1 lon1 lat2 lon2 ∧
    haversine_m lat1 lon1 lat2 lon2 ≤ Real.pi * 6371008.8 := by
  obtain ⟨ha0, ha1⟩ := haversineA_mem_Icc lat1 lon1 lat2 lon2
  refine ⟨ha0, ha1, ?_, ?_⟩ <;>
  · unfold haversine_m EARTH_RADIUS_M
    obtain ⟨hl, hu⟩ := atan2_mem_of_nonneg
      (Real.sqrt_nonneg (haversineA lat1 lon1 lat2 lon2))
      (Real.sqrt_nonneg (max 0 (1 - haversineA lat1 lon1 lat2 lon2)))
    nlinarith [Real.pi_pos]

/-! ### Claim C5 -/

/-- C5 counterexample: on the valid bbox south −10, west −180, north 10,
east 180 with a 100 × 100 image, along row 50 the pixel pair with
separation 100 yields distance 0 (the endpoints map to longitudes −180 and
180, one full turn apart), strictly smaller than the distance of the pair
with separation 50. -/
theorem C5_counterexample :
    |(100:ℝ) - 0| > |(50:ℝ) - 0| ∧
    (distance_between_image_pixels_m 0 50 100 50 100 100 (-10) (-180) 10 180).getD 0 <
    (distance_between_image_pixels_m 0 50 50 50 100 100 (-10) (-180) 10 180).getD 0 := by
  refine ⟨by norm_num, ?_⟩
  have e1 := @distance_eq_of_valid 100 100 (-10) (-180) 10 180 0 50 100 50
    (by norm_num) (by norm_num) (by norm_num) (by norm_num)
  have e2 := @distance_eq_of_valid 100 100 (-10) (-180) 10 180 0 50 50 50
    (by norm_num) (by norm_num) (by norm_num) (by norm_num)
  norm_num at e1 e2
  rw [e1, e2, Option.getD_some, Option.getD_some]
  have v1 : haversine_m 0 (-180) 0 180 = 0 := by
    have hA : haversineA 0 (-180) 0 180 = 0 := by
      rw [haversineA_same_lat,
        show radians (180 - -180) / 2 = Real.pi by unfold radians; ring,
        Real.sin_pi]
      ring
    unfold haversine_m
    dsimp only
    rw [hA, Real.sqrt_zero, show max (0:ℝ) (1 - 0) = 1 by norm_num,
      Real.sqrt_one]
    have : atan2 0 1 = 0 := by
      unfold atan2
      rw [if_pos one_pos]
      norm_num [Real.arctan_zero]
    rw [this]
    ring
  have v2 : haversine_m 0 (-180) 0 0 = EARTH_RADIUS_M * Real.pi := by
    have hA : haversineA 0 (-180) 0 0 = 1 := by
      rw [haversineA_same_lat,
        show radians (0 - -180) / 2 = Real.pi / 2 by unfold radians; ring,
        Real.sin_pi_div_two,
        show radians 0 = 0 by unfold radians; ring, Real.cos_zero]
      ring
    unfold haversine_m
    dsimp only
    rw [hA, Real.sqrt_one, show max (0:ℝ) (1 - 1) = 0 by norm_num,
      Real.sqrt_zero, atan2_one_zero]
    ring
  rw [v1, v2]
  have : (0:ℝ) < EARTH_RADIUS_M * Real.pi := by
    unfold EARTH_RADIUS_M
    positivity
  linarith

/-- C5 amended: for a fixed valid bbox and positive image size,
`distance_between_image_pixels_m` is monotonically non-decreasing in pixel
separation along a fixed row (respectively column) as long as the larger
separation corresponds to at most half a turn — at most 180 degrees of
longitude (respectively latitude); the original claim fails only when a
separation spans more than 180 degrees. -/
theorem C5_distance_monotone_in_separation (w h : ℤ) (s we n e : ℝ)
    (hw : 0 < w) (hh : 0 < h) (hsn : s < n) (hwe : we < e) :
    (∀ y x1 x2 x3 x4 : ℝ, |x2 - x1| ≤ |x4 - x3| →
      |x4 - x3| * (e - we) / (w:ℝ) ≤ 180 →
      (distance_between_image_pixels_m x1 y x2 y w h s we n e).getD 0 ≤
      (distance_between_image_pixels_m x3 y x4 y w h s we n e).getD 0) ∧
    (∀ x y1 y2 y3 y4 : ℝ, |y2 - y1| ≤ |y4 - y3| →
      |y4 - y3| * (n - s) / (h:ℝ) ≤ 180 →
      (distance_between_image_pixels_m x y1 x y2 w h s we n e).getD 0 ≤
      (distance_between_image_pixels_m x y3 x y4 w h s we n e).getD 0) := by
  have hwR : (0:ℝ) < (w:ℝ) := by exact_mod_cast hw
  have hhR : (0:ℝ) < (h:ℝ) := by exact_mod_cast hh
  have hewe : (0:ℝ) < e - we := by linarith
  have hns : (0:ℝ) < n - s := by linarith
  have hpi := Real.pi_pos
  constructor
  · intro y x1 x2 x3 x4 hsep hspan
    rw [distance_eq_of_valid x1 y x2 y hw hh hsn hwe,
      distance_eq_of_valid x3 y x4 y hw hh hsn hwe,
      Option.getD_some, Option.getD_some]
    have hC : (0:ℝ) < (e - we) / (w:ℝ) * (Real.pi / 360) := by positivity
    have habs : ∀ d : ℝ, |radians ((e - we) * d / (w:ℝ)) / 2| =
        ((e - we) / (w:ℝ) * (Real.pi / 360)) * |d| := by
      intro d
      rw [show radians ((e - we) * d / (w:ℝ)) / 2 =
          ((e - we) / (w:ℝ) * (Real.pi / 360)) * d by unfold radians; ring,
        abs_mul, abs_of_pos hC]
    apply haversine_m_le_of_A_le
    · rw [haversineA_same_lat, haversineA_same_lat,
        show (we + (e - we) * (x2 / (w:ℝ))) - (we + (e - we) * (x1 / (w:ℝ))) =
          (e - we) * (x2 - x1) / (w:ℝ) by ring,
        show (we + (e - we) * (x4 / (w:ℝ))) - (we + (e - we) * (x3 / (w:ℝ))) =
          (e - we) * (x4 - x3) / (w:ℝ) by ring]
      apply mul_le_mul_of_nonneg_left _ (sq_nonneg _)
      apply sin_sq_le_sin_sq
      · rw [habs, habs]
        exact mul_le_mul_of_nonneg_left hsep hC.le
      · rw [habs]
        calc ((e - we) / (w:ℝ) * (Real.pi / 360)) * |x4 - x3|
            = (|x4 - x3| * (e - we) / (w:ℝ)) * (Real.pi / 360) := by ring
          _ ≤ 180 * (Real.pi / 360) :=
              mul_le_mul_of_nonneg_right hspan (by positivity)
          _ = Real.pi / 2 := by ring
    · rw [haversineA_same_lat]
      exact mul_le_one (Real.cos_sq_le_one _) (sq_nonneg _) (Real.sin_sq_le_one _)
  · intro x y1 y2 y3 y4 hsep hspan
    rw [distance_eq_of_valid x y1 x y2 hw hh hsn hwe,
      distance_eq_of_valid x y3 x y4 hw hh hsn hwe,
      Option.getD_some, Option.getD_some]
    have hC : (0:ℝ) < (n - s) / (h:ℝ) * (Real.pi / 360) := by positivity
    have habs : ∀ d : ℝ, |radians ((n - s) * d / (h:ℝ)) / 2| =
        ((n - s) / (h:ℝ) * (Real.pi / 360)) * |d| := by
      intro d
      rw [show radians ((n - s) * d / (h:ℝ)) / 2 =
          ((n - s) / (h:ℝ) * (Real.pi / 360)) * d by unfold radians; ring,
        abs_mul, abs_of_pos hC]
    have hsep' : |y1 - y2| ≤ |y3 - y4| := by
      rw [abs_sub_comm y1 y2, abs_sub_comm y3 y4]
      exact hsep
    apply haversine_m_le_of_A_le
    · rw [haversineA_same_lon, haversineA_same_lon,
        show radians (n - (n - s) * (y2 / (h:ℝ))) -
            radians (n - (n - s) * (y1 / (h:ℝ))) =
          radians ((n - s) * (y1 - y2) / (h:ℝ)) by unfold radians; ring,
        show radians (n - (n - s) * (y4 / (h:ℝ))) -
            radians (n - (n - s) * (y3 / (h:ℝ))) =
          radians ((n - s) * (y3 - y4) / (h:ℝ)) by unfold radians; ring]
      apply sin_sq_le_sin_sq
      · rw [habs, habs]
        exact mul_le_mul_of_nonneg_left hsep' hC.le
      · rw [habs]
        calc ((n - s) / (h:ℝ) * (Real.pi / 360)) * |y3 - y4|
            = (|y3 - y4| * (n - s) / (h:ℝ)) * (Real.pi / 360) := by ring
          _ ≤ 180 * (Real.pi / 360) := by
              rw [abs_sub_comm y3 y4]
              exact mul_le_mul_of_nonneg_right hspan (by positivity)
          _ = Real.pi / 2 := by ring
    · rw [haversineA_same_lon]
      exact Real.sin_sq_le_one _

/-- Witness for C5 on a concrete bbox, row and pixel pairs. -/
theorem C5_distance_monotone_in_separation_witness :
    (distance_between_image_pixels_m 0 50 10 50 100 100 0 0 1 1).getD 0 ≤
    (distance_between_image_pixels_m 0 50 20 50 100 100 0 0 1 1).getD 0 :=
  (C5_distance_monotone_in_separation 100 100 0 0 1 1 (by norm_num) (by norm_num)
    (by norm_num) (by norm_num)).1 50 0 10 0 20 (by norm_num) (by norm_num)

/-! ### Claim C6 -/

/-- C6 counterexample: `meters_per_pixel_at_center` returns normally on a
bounding box with `south = 5 ≥ 1 = north` (and `west = 0 < 2 = east`), where
the claim requires a validation error. -/
theorem C6_counterexample :
    (1 : ℝ) ≤ 5 ∧ (meters_per_pixel_at_center 10 10 5 0 1 2).isSome = true := by
  refine ⟨by norm_num, ?_⟩
  rw [meters_per_pixel_at_center_isSome_iff]
  exact ⟨by norm_num, by norm_num⟩

/-- C6 amended: `pixel_to_lonlat` and `distance_between_image_pixels_m`
raise a validation error exactly when `width ≤ 0`, `height ≤ 0`,
`south ≥ north` or `west ≥ east`, and return normally otherwise; but
`meters_per_pixel_at_center` validates only the width and height and
returns normally on any bounding box, valid or not. -/
theorem C6_validation_behaviour (x1 y1 x2 y2 : ℝ) (w h : ℤ) (s we n e : ℝ) :
    ((pixel_to_lonlat x1 y1 w h s we n e).isSome ↔
      0 < w ∧ 0 < h ∧ (s < n ∧ we < e)) ∧
    ((distance_between_image_pixels_m x1 y1 x2 y2 w h s we n e).isSome ↔
      0 < w ∧ 0 < h ∧ (s < n ∧ we < e)) ∧
    ((meters_per_pixel_at_center w h s we n e).isSome ↔ 0 < w ∧ 0 < h) :=
  ⟨pixel_to_lonlat_isSome_iff x1 y1 w h s we n e,
   distance_between_image_pixels_m_isSome_iff x1 y1 x2 y2 w h s we n e,
   meters_per_pixel_at_center_isSome_iff w h s we n e⟩

/-- Witness for C6: at width 4, height 5 and the bbox south 0, west 0,
north 1, east 1, all three functions return normally. -/
theorem C6_validation_behaviour_witness :
    (pixel_to_lonlat 0 0 4 5 0 0 1 1).isSome ∧
    (distance_between_image_pixels_m 0 0 1 1 4 5 0 0 1 1).isSome ∧
    (meters_per_pixel_at_center 4 5 0 0 1 1).isSome := by
  have h := C6_validation_behaviour 0 0 1 1 4 5 0 0 1 1
  refine ⟨h.1.mpr ?_, h.2.1.mpr ?_, h.2.2.mpr ?_⟩ <;> norm_num

theorem try_arcgis_export_eq_none_iff (resps : List ExportResp) :
    try_arcgis_export resps = none ↔
      ∀ r ∈ resps, ∀ img, r ≠ ExportResp.image img := by
  induction resps with
  | nil => simp [try_arcgis_export]
  | cons r rest ih =>
      cases r with
      | failure => simpa [try_arcgis_export] using ih
      | nonImage => simpa [try_arcgis_export] using ih
      | image i =>
          simp only [try_arcgis_export, List.mem_cons]
          constructor
          · intro h
            exact absurd h (by simp)
          · intro h
            exact absurd rfl (h (ExportResp.image i) (Or.inl rfl) i)

theorem try_arcgis_export_eq_some_mem {resps : List ExportResp} {i : Img}
    (h : try_arcgis_export resps = some i) : ExportResp.image i ∈ resps := by
  induction resps with
  | nil => simp [try_arcgis_export] at h
  | cons r rest ih =>
      cases r with
      | failure => exact List.mem_cons_of_mem _ (ih h)
      | nonImage => exact List.mem_cons_of_mem _ (ih h)
      | image j =>
          simp only [try_arcgis_export, Option.some.injEq] at h
          subst h
          exact List.mem_cons_self _ _

theorem tan_add_sec_le_of_le {a b : ℝ} (ha : -(Real.pi / 2) < a) (hab : a ≤ b)
    (hb : b < Real.pi / 2) :
    Real.tan a + 1 / Real.cos a ≤ Real.tan b + 1 / Real.cos b := by
  have hca : 0 < Real.cos a := Real.cos_pos_of_mem_Ioo ⟨ha, lt_of_le_of_lt hab hb⟩
  have hcb : 0 < Real.cos b := Real.cos_pos_of_mem_Ioo ⟨lt_of_lt_of_le ha hab, hb⟩
  have hpi := Real.pi_pos
  have hD0 : 0 ≤ (b - a) / 2 := by linarith
  have hsinD : 0 ≤ Real.sin ((b - a) / 2) :=
    Real.sin_nonneg_of_nonneg_of_le_pi hD0 (by linarith)
  have hcosD : 0 ≤ Real.cos ((b - a) / 2) :=
    Real.cos_nonneg_of_mem_Icc ⟨by linarith, by linarith⟩
  have hCS : 0 ≤ Real.cos ((b - a) / 2) + Real.sin ((b + a) / 2) := by
    rcases le_or_lt 0 ((b + a) / 2) with hS | hS
    · have : 0 ≤ Real.sin ((b + a) / 2) :=
        Real.sin_nonneg_of_nonneg_of_le_pi hS (by linarith)
      linarith
    · have heq : Real.cos (Real.pi / 2 - -((b + a) / 2)) = Real.sin (-((b + a) / 2)) :=
        Real.cos_pi_div_two_sub _
      rw [Real.sin_neg] at heq
      have hle : Real.cos (Real.pi / 2 - -((b + a) / 2)) ≤ Real.cos ((b - a) / 2) := by
        apply Real.cos_le_cos_of_nonneg_of_le_pi hD0 (by linarith) (by linarith)
      linarith [heq ▸ hle]
  have hkey : Real.cos b - Real.cos a ≤ Real.sin (b - a) := by
    have h1 : Real.cos b - Real.cos a =
        -2 * Real.sin ((b + a) / 2) * Real.sin ((b - a) / 2) := Real.cos_sub_cos b a
    have h2 : Real.sin (2 * ((b - a) / 2)) =
        2 * Real.sin ((b - a) / 2) * Real.cos ((b - a) / 2) := Real.sin_two_mul _
    rw [show 2 * ((b - a) / 2) = b - a by ring] at h2
    rw [h1, h2]
    nlinarith [mul_nonneg hsinD hCS]
  have hmain : (1 + Real.sin a) * Real.cos b ≤ (1 + Real.sin b) * Real.cos a := by
    have hsub : Real.sin (b - a) = Real.sin b * Real.cos a - Real.cos b * Real.sin a :=
      Real.sin_sub b a
    nlinarith [hkey]
  rw [Real.tan_eq_sin_div_cos, Real.tan_eq_sin_div_cos, div_add_div_same,
    div_add_div_same, div_le_div_iff hca hcb]
  nlinarith [hmain]

theorem one_add_sin_pos_of_cos_pos {a : ℝ} (hca : 0 < Real.cos a) :
    0 < 1 + Real.sin a := by
  nlinarith [Real.sin_sq_add_cos_sq a, Real.neg_one_le_sin a, mul_pos hca hca]

theorem tan_add_sec_pos {a : ℝ} (ha : -(Real.pi / 2) < a) (hb : a < Real.pi / 2) :
    0 < Real.tan a + 1 / Real.cos a := by
  have hca : 0 < Real.cos a := Real.cos_pos_of_mem_Ioo ⟨ha, hb⟩
  rw [Real.tan_eq_sin_div_cos, div_add_div_same]
  exact div_pos (by linarith [one_add_sin_pos_of_cos_pos hca]) hca

theorem mercatorClamp_le {s n : ℝ} (h : s ≤ n) :
    max (min s 85.05112878) (-85.05112878) ≤ max (min n 85.05112878) (-85.05112878) :=
  max_le_max (min_le_min h le_rfl) le_rfl

theorem mercatorClamp_mem (x : ℝ) :
    -85.05112878 ≤ max (min x 85.05112878) (-85.05112878) ∧
    max (min x 85.05112878) (-85.05112878) ≤ 85.05112878 :=
  ⟨le_max_right _ _, max_le (min_le_right _ _) (by norm_num)⟩

theorem radians_lt_pi_div_two {x : ℝ} (hx : x ≤ 85.05112878) :
    radians x < Real.pi / 2 := by
  unfold radians
  nlinarith [Real.pi_pos]

theorem neg_pi_div_two_lt_radians {x : ℝ} (hx : -85.05112878 ≤ x) :
    -(Real.pi / 2) < radians x := by
  unfold radians
  nlinarith [Real.pi_pos]

theorem radians_le_radians {x y : ℝ} (h : x ≤ y) : radians x ≤ radians y := by
  unfold radians
  have := mul_le_mul_of_nonneg_right h Real.pi_pos.le
  linarith

theorem lon_to_xtile_mono {we e : ℝ} (h : we ≤ e) (z : ℕ) :
    lon_to_xtile we z ≤ lon_to_xtile e z := by
  unfold lon_to_xtile
  have h2z : (0:ℝ) ≤ 2 ^ z := by positivity
  have : (we + 180) / 360 ≤ (e + 180) / 360 := by linarith
  exact mul_le_mul_of_nonneg_right this h2z

theorem lat_to_ytile_antitone {s n : ℝ} (h : s ≤ n) (z : ℕ) :
    lat_to_ytile n z ≤ lat_to_ytile s z := by
  unfold lat_to_ytile
  dsimp only
  have hcl : max (min s 85.05112878) (-85.05112878) ≤
      max (min n 85.05112878) (-85.05112878) := mercatorClamp_le h
  obtain ⟨hs1, hs2⟩ := mercatorClamp_mem s
  obtain ⟨hn1, hn2⟩ := mercatorClamp_mem n
  set cs := max (min s 85.05112878) (-85.05112878)
  set cn := max (min n 85.05112878) (-85.05112878)
  have has : -(Real.pi / 2) < radians cs := neg_pi_div_two_lt_radians hs1
  have hbs : radians cs < Real.pi / 2 := radians_lt_pi_div_two hs2
  have han : -(Real.pi / 2) < radians cn := neg_pi_div_two_lt_radians hn1
  have hbn : radians cn < Real.pi / 2 := radians_lt_pi_div_two hn2
  have hT : Real.tan (radians cs) + 1 / Real.cos (radians cs) ≤
      Real.tan (radians cn) + 1 / Real.cos (radians cn) :=
    tan_add_sec_le_of_le has (radians_le_radians hcl) hbn
  have hTpos : 0 < Real.tan (radians cs) + 1 / Real.cos (radians cs) :=
    tan_add_sec_pos has hbs
  have hlog : Real.log (Real.tan (radians cs) + 1 / Real.cos (radians cs)) ≤
      Real.log (Real.tan (radians cn) + 1 / Real.cos (radians cn)) :=
    (Real.log_le_log_iff hTpos (lt_of_lt_of_le hTpos hT)).mpr hT
  have hpi := Real.pi_pos
  have h2z : (0:ℝ) ≤ 2 ^ z := by positivity
  apply mul_le_mul_of_nonneg_right _ h2z
  have hdiv : Real.log (Real.tan (radians cs) + 1 / Real.cos (radians cs)) / Real.pi ≤
      Real.log (Real.tan (radians cn) + 1 / Real.cos (radians cn)) / Real.pi :=
    (div_le_div_right hpi).mpr hlog
  linarith

theorem radians_lt_pi_div_two_of_lt {x : ℝ} (hx : x < 90) :
    radians x < Real.pi / 2 := by
  unfold radians
  nlinarith [Real.pi_pos, mul_pos (by linarith : (0:ℝ) < 90 - x) Real.pi_pos]

theorem neg_pi_div_two_lt_radians_of_lt {x : ℝ} (hx : -90 < x) :
    -(Real.pi / 2) < radians x := by
  unfold radians
  nlinarith [Real.pi_pos, mul_pos (by linarith : (0:ℝ) < x + 90) Real.pi_pos]

theorem logb_two_tiny_lt : Real.logb 2 1e-9 < -29 := by
  have hlog2 : 0 < Real.log 2 := Real.log_pos (by norm_num)
  have hpow : Real.log ((2:ℝ) ^ (29:ℕ)) < Real.log 1e9 :=
    Real.log_lt_log (by positivity) (by norm_num)
  rw [Real.log_pow] at hpow
  have hinv : Real.log (1e-9:ℝ) = -Real.log 1e9 := by
    rw [show (1e-9:ℝ) = (1e9:ℝ)⁻¹ by norm_num, Real.log_inv]
  rw [Real.logb, hinv, div_lt_iff hlog2]
  push_cast at hpow
  linarith

theorem pyRound_neg_of_lt {x : ℝ} (hx : x < -1) : pyRound x < 0 := by
  have h1 := pyRound_le_floor_add_one x
  have h2 : (⌊x⌋ : ℝ) ≤ x := Int.floor_le x
  have h3 : (⌊x⌋ : ℝ) < -1 := lt_of_le_of_lt h2 hx
  have h4 : ⌊x⌋ < -1 := by exact_mod_cast h3
  omega

/-! ### Claim C3 -/

/-- C3: on every valid bounding box (latitudes within `[-90, 90]`,
`south < north`, `west < east`) and target size at least 1,
`pick_zoom_for_bbox` agrees with the specification's formula
`round(log2(156543.03392·cos(lat_mid)/mpp_target))` clamped to `[0, 19]`
with `mpp_target = max(0.01, Δlon·111320·cos(lat_mid)/target_px)` (the
source's two inner guard clamps never change the result there), and the
result is always an integer in `[0, 19]`. -/
theorem C3_pick_zoom_matches_spec (s we n e : ℝ) (t : ℤ)
    (h1 : -90 ≤ s) (h2 : s < n) (h3 : n ≤ 90) (h4 : we < e) (ht : 1 ≤ t) :
    pick_zoom_for_bbox s we n e t = zoomSpecFormula s we n e t ∧
    0 ≤ pick_zoom_for_bbox s we n e t ∧ pick_zoom_for_bbox s we n e t ≤ 19 := by
  have hrange : ∀ k : ℤ, 0 ≤ min 19 (max 0 k) ∧ min 19 (max 0 k) ≤ 19 := fun k =>
    ⟨le_min (by norm_num) (le_max_left _ _), min_le_left _ _⟩
  refine ⟨?_, (hrange _).1, (hrange _).2⟩
  have hmid1 : (-90:ℝ) < (s + n) / 2 := by linarith
  have hmid2 : (s + n) / 2 < 90 := by linarith
  have hc : 0 < Real.cos (radians ((s + n) / 2)) :=
    Real.cos_pos_of_mem_Ioo
      ⟨neg_pi_div_two_lt_radians_of_lt hmid1, radians_lt_pi_div_two_of_lt hmid2⟩
  have htpos : (0:ℝ) < (t:ℝ) := by exact_mod_cast lt_of_lt_of_le one_pos ht
  unfold pick_zoom_for_bbox zoomSpecFormula
  dsimp only
  set c := Real.cos (radians ((s + n) / 2)) with hcdef
  have hm : max 0.01 (max 1e-6 ((e - we) * 111320 * c) / (t:ℝ)) =
      max 0.01 ((e - we) * 111320 * c / (t:ℝ)) := by
    rcases le_or_lt 1e-6 ((e - we) * 111320 * c) with hcase | hcase
    · rw [max_eq_right hcase]
    · have htR : (1:ℝ) ≤ (t:ℝ) := by exact_mod_cast ht
      have hA : max 1e-6 ((e - we) * 111320 * c) / (t:ℝ) ≤ 0.01 := by
        rw [max_eq_left hcase.le, div_le_iff htpos]
        nlinarith
      have hB : (e - we) * 111320 * c / (t:ℝ) ≤ 0.01 := by
        rw [div_le_iff htpos]
        nlinarith
      rw [max_eq_left hA, max_eq_left hB]
  rw [hm]
  set m := max 0.01 ((e - we) * 111320 * c / (t:ℝ)) with hmdef
  have hmpos : (0:ℝ) < m := lt_of_lt_of_le (by norm_num) (le_max_left _ _)
  have hApos : 0 < 156543.03392 * c / m := by positivity
  rcases le_or_lt 1e-9 (156543.03392 * c / m) with hbig | hsmall
  · rw [max_eq_right hbig]
  · rw [max_eq_left hsmall.le]
    have hlogA : Real.logb 2 (156543.03392 * c / m) ≤ Real.logb 2 1e-9 :=
      Real.logb_le_logb_of_le (by norm_num) hApos hsmall.le
    have hz1 : pyRound (Real.logb 2 1e-9) < 0 :=
      pyRound_neg_of_lt (by linarith [logb_two_tiny_lt])
    have hz2 : pyRound (Real.logb 2 (156543.03392 * c / m)) < 0 :=
      pyRound_neg_of_lt (by linarith [logb_two_tiny_lt])
    rw [max_eq_left hz1.le, max_eq_left hz2.le]

/-- Witness for C3 on a concrete valid bbox with target 100. -/
theorem C3_pick_zoom_matches_spec_witness :
    pick_zoom_for_bbox (-10) (-10) 10 10 100 = zoomSpecFormula (-10) (-10) 10 10 100 ∧
    0 ≤ pick_zoom_for_bbox (-10) (-10) 10 10 100 ∧
    pick_zoom_for_bbox (-10) (-10) 10 10 100 ≤ 19 :=
  C3_pick_zoom_matches_spec (-10) (-10) 10 10 100 (by norm_num) (by norm_num)
    (by norm_num) (by norm_num) (by norm_num)

/-! ### Claim C8 -/

/-- C8: at the zoom selected for the request, the integer tile range
`[xMin, xMax] × [yMin, yMax]` of `stitch_tiles` is non-empty
(`xMin ≤ xMax`, `yMin ≤ yMax`) and contains the tile covering each of the
four bbox corners (the tile of `(lon, lat)` being
`(⌊lon_to_xtile lon⌋, ⌊lat_to_ytile lat⌋)`; the corners combine
`lon ∈ {west, east}` with `lat ∈ {south, north}`). -/
theorem C8_tile_range_contains_corners (s we n e : ℝ) (width height : ℤ) (z : ℕ)
    (hsn : s < n) (hwe : we < e)
    (hz : z = (pick_zoom_for_bbox s we n e (max width height)).toNat) :
    stitchXMin we z ≤ stitchXMax e z ∧
    stitchYMin n z ≤ stitchYMax s z ∧
    (stitchXMin we z ≤ ⌊lon_to_xtile we z⌋ ∧ ⌊lon_to_xtile we z⌋ ≤ stitchXMax e z) ∧
    (stitchXMin we z ≤ ⌊lon_to_xtile e z⌋ ∧ ⌊lon_to_xtile e z⌋ ≤ stitchXMax e z) ∧
    (stitchYMin n z ≤ ⌊lat_to_ytile n z⌋ ∧ ⌊lat_to_ytile n z⌋ ≤ stitchYMax s z) ∧
    (stitchYMin n z ≤ ⌊lat_to_ytile s z⌋ ∧ ⌊lat_to_ytile s z⌋ ≤ stitchYMax s z) := by
  have hx : (⌊lon_to_xtile we z⌋ : ℤ) ≤ ⌊lon_to_xtile e z⌋ :=
    Int.floor_le_floor (lon_to_xtile_mono hwe.le z)
  have hy : (⌊lat_to_ytile n z⌋ : ℤ) ≤ ⌊lat_to_ytile s z⌋ :=
    Int.floor_le_floor (lat_to_ytile_antitone hsn.le z)
  unfold stitchXMin stitchXMax stitchYMin stitchYMax
  exact ⟨hx, hy, ⟨le_refl _, hx⟩, ⟨hx, le_refl _⟩, ⟨le_refl _, hy⟩, ⟨hy, le_refl _⟩⟩

/-- Witness for C8 on the bbox south 0, west 0, north 1, east 1 with a
256 × 256 request. -/
theorem C8_tile_range_contains_corners_witness :
    stitchXMin 0 ((pick_zoom_for_bbox 0 0 1 1 (max 256 256)).toNat) ≤
      stitchXMax 1 ((pick_zoom_for_bbox 0 0 1 1 (max 256 256)).toNat) ∧
    stitchYMin 1 ((pick_zoom_for_bbox 0 0 1 1 (max 256 256)).toNat) ≤
      stitchYMax 0 ((pick_zoom_for_bbox 0 0 1 1 (max 256 256)).toNat) :=
  ⟨(C8_tile_range_contains_corners 0 0 1 1 256 256 _ (by norm_num) (by norm_num)
      rfl).1,
   (C8_tile_range_contains_corners 0 0 1 1 256 256 _ (by norm_num) (by norm_num)
      rfl).2.1⟩

/-! ### Claim C9 -/

/-- C9: at the selected zoom, the clamped crop rectangle of `stitch_tiles`
always satisfies `0 ≤ left < right ≤ canvas width` and
`0 ≤ top < bottom ≤ canvas height`: the crop has at least a one-pixel
extent and lies entirely inside the composite canvas. -/
theorem C9_crop_rect_valid (s we n e : ℝ) (width height : ℤ) (z : ℕ)
    (hsn : s < n) (hwe : we < e)
    (hz : z = (pick_zoom_for_bbox s we n e (max width height)).toNat) :
    0 ≤ (stitchCropRect s we n e z).1 ∧
    (stitchCropRect s we n e z).1 < (stitchCropRect s we n e z).2.2.1 ∧
    (stitchCropRect s we n e z).2.2.1 ≤ stitchCanvasW we e z ∧
    0 ≤ (stitchCropRect s we n e z).2.1 ∧
    (stitchCropRect s we n e z).2.1 < (stitchCropRect s we n e z).2.2.2 ∧
    (stitchCropRect s we n e z).2.2.2 ≤ stitchCanvasH s n z := by
  have hx : stitchXMin we z ≤ stitchXMax e z :=
    Int.floor_le_floor (lon_to_xtile_mono hwe.le z)
  have hy : stitchYMin n z ≤ stitchYMax s z :=
    Int.floor_le_floor (lat_to_ytile_antitone hsn.le z)
  have hcw : 256 ≤ stitchCanvasW we e z := by
    unfold stitchCanvasW
    nlinarith [hx]
  have hch : 256 ≤ stitchCanvasH s n z := by
    unfold stitchCanvasH
    nlinarith [hy]
  unfold stitchCropRect
  dsimp only
  constructor
  · exact le_max_left _ _
  refine ⟨lt_of_lt_of_le (lt_add_one _) (le_max_left _ _), ?_, le_max_left _ _,
    lt_of_lt_of_le (lt_add_one _) (le_max_left _ _), ?_⟩
  · apply max_le
    · have : max 0 (min (stitchCanvasW we e z - 1)
          (pyRound ((lonlat_to_global_px we n z).1 - stitchXMin we z * 256))) ≤
          stitchCanvasW we e z - 1 :=
        max_le (by omega) (min_le_left _ _)
      omega
    · exact min_le_left _ _
  · apply max_le
    · have : max 0 (min (stitchCanvasH s n z - 1)
          (pyRound ((lonlat_to_global_px we n z).2 - stitchYMin n z * 256))) ≤
          stitchCanvasH s n z - 1 :=
        max_le (by omega) (min_le_left _ _)
      omega
    · exact min_le_left _ _

/-- Witness for C9 on the bbox south 0, west 0, north 1, east 1 with a
256 × 256 request. -/
theorem C9_crop_rect_valid_witness :
    0 ≤ (stitchCropRect 0 0 1 1
      ((pick_zoom_for_bbox 0 0 1 1 (max 256 256)).toNat)).1 ∧
    (stitchCropRect 0 0 1 1
      ((pick_zoom_for_bbox 0 0 1 1 (max 256 256)).toNat)).1 <
    (stitchCropRect 0 0 1 1
      ((pick_zoom_for_bbox 0 0 1 1 (max 256 256)).toNat)).2.2.1 :=
  ⟨(C9_crop_rect_valid 0 0 1 1 256 256 _ (by norm_num) (by norm_num) rfl).1,
   (C9_crop_rect_valid 0 0 1 1 256 256 _ (by norm_num) (by norm_num) rfl).2.1⟩

/-! ### Claim C2 -/

/-- C2: `fetch_satellite_bbox` tries the direct export first; the export's
"no result" signal (`none`) arises exactly when every mirror was exhausted
without an image response; stitching is consulted exactly in that case, and
the `none` signal itself is never surfaced to the caller (the result is
then whatever stitching produces). -/
theorem C2_fetch_fallback (resps : List ExportResp) (env : TileEnv)
    (s we n e : ℝ) (width height : ℤ) :
    (try_arcgis_export resps = none ↔
      ∀ r ∈ resps, ∀ img, r ≠ ExportResp.image img) ∧
    (∀ img, try_arcgis_export resps = some img →
      fetch_satellite_bbox resps env s we n e width height = Except.ok img) ∧
    (try_arcgis_export resps = none →
      fetch_satellite_bbox resps env s we n e width height =
        stitch_tiles env s we n e width height) := by
  refine ⟨try_arcgis_export_eq_none_iff resps, ?_, ?_⟩
  · intro img h
    simp [fetch_satellite_bbox, h]
  · intro h
    simp [fetch_satellite_bbox, h]

/-- Witness for C2: with a single failing export mirror, the fetch result
is exactly the stitching result. -/
theorem C2_fetch_fallback_witness :
    fetch_satellite_bbox [ExportResp.failure] (fun _ _ _ => false) 0 0 1 1 5 5 =
      stitch_tiles (fun _ _ _ => false) 0 0 1 1 5 5 :=
  (C2_fetch_fallback [ExportResp.failure] (fun _ _ _ => false) 0 0 1 1 5 5).2.2 rfl

/-! ### Claim C1 -/

/-- C1: whenever the fetch operation returns image bytes, the image has
exactly the requested `width × height` dimensions — whether produced by the
direct export (whose mirrors, per the external interface, answer a
`size=width,height` request with an image of that size, the `hexport`
hypothesis) or by tile stitching; in particular the stitching path yields
exactly `width × height` because it resizes its crop whenever the crop's
dimensions differ from the request. -/
theorem C1_fetch_exact_dimensions (resps : List ExportResp) (env : TileEnv)
    (s we n e : ℝ) (width height : ℤ)
    (hw : 0 < width) (hh : 0 < height) (hsn : s < n) (hwe : we < e)
    (hexport : ∀ r ∈ resps, ∀ img, r = ExportResp.image img →
      img.w = width ∧ img.h = height) :
    (∀ img, fetch_satellite_bbox resps env s we n e width height = Except.ok img →
      img.w = width ∧ img.h = height) ∧
    (∀ img, stitch_tiles env s we n e width height = Except.ok img →
      img.w = width ∧ img.h = height) := by
  have hstitch : ∀ img, stitch_tiles env s we n e width height = Except.ok img →
      img.w = width ∧ img.h = height := by
    intro img h
    unfold stitch_tiles at h
    dsimp only at h
    split_ifs at h with h1 h2
    · simp only [Except.ok.injEq] at h
      subst h
      exact ⟨rfl, rfl⟩
    · simp only [Except.ok.injEq] at h
      subst h
      push_neg at h2
      exact h2
  refine ⟨?_, hstitch⟩
  intro img h
  unfold fetch_satellite_bbox at h
  cases he : try_arcgis_export resps with
  | none =>
      rw [he] at h
      exact hstitch img h
  | some i =>
      rw [he] at h
      simp only [Except.ok.injEq] at h
      subst h
      exact hexport _ (try_arcgis_export_eq_some_mem he) _ rfl

/-- Witness for C1: a single export mirror answering with a 4 × 3 image for
a 4 × 3 request. -/
theorem C1_fetch_exact_dimensions_witness :
    (Img.mk 4 3).w = 4 ∧ (Img.mk 4 3).h = 3 :=
  (C1_fetch_exact_dimensions [ExportResp.image ⟨4, 3⟩] (fun _ _ _ => false)
    0 0 1 1 4 3 (by norm_num) (by norm_num) (by norm_num) (by norm_num)
    (by
      intro r hr img himg
      rw [List.mem_singleton] at hr
      subst hr
      injection himg with h2
      subst h2
      exact ⟨rfl, rfl⟩)).1 ⟨4, 3⟩ rfl

/-! ### Claim C7 -/

/-- C7 counterexample: a request with non-positive width 0 is not rejected;
the CLI clamps it to 1 and proceeds with the fetch. -/
theorem C7_counterexample :
    cliMain 0 0 1 1 0 10 = Except.ok ⟨0, 0, 1, 1, 1, 10⟩ := by
  unfold cliMain
  rw [if_neg (not_not_intro ⟨by norm_num, by norm_num⟩)]
  norm_num

/-- C7 amended: the CLI rejects an out-of-order bounding box (exit code 2)
before any fetch; non-positive (or over-large) width and height are clamped
into `[1, 4096]` rather than rejected; and the library-level
`fetch_satellite_bbox` itself performs no validation at all (an invalid
bbox is still sent to the mirrors). -/
theorem C7_cli_validation (s we n e : ℝ) (w h : ℤ) :
    (¬(s < n ∧ we < e) → cliMain s we n e w h = Except.error 2) ∧
    (s < n ∧ we < e → cliMain s we n e w h =
      Except.ok ⟨s, we, n, e, max 1 (min 4096 w), max 1 (min 4096 h)⟩ ∧
      1 ≤ max 1 (min 4096 w) ∧ max 1 (min 4096 w) ≤ 4096 ∧
      1 ≤ max 1 (min 4096 h) ∧ max 1 (min 4096 h) ≤ 4096) ∧
    (∀ resps env img, try_arcgis_export resps = some img →
      fetch_satellite_bbox resps env s we n e w h = Except.ok img) := by
  refine ⟨?_, ?_, ?_⟩
  · intro hbad
    unfold cliMain
    rw [if_pos hbad]
  · intro hgood
    refine ⟨?_, by omega, by omega, by omega, by omega⟩
    unfold cliMain
    rw [if_neg (not_not_intro hgood)]
  · intro resps env img h
    simp [fetch_satellite_bbox, h]

/-- Witness for C7: an inverted bbox is rejected with exit code 2. -/
theorem C7_cli_validation_witness :
    cliMain 1 0 0 1 5 5 = Except.error 2 :=
  (C7_cli_validation 1 0 0 1 5 5).1 (by norm_num)

/-! ### Claim C4 -/

/-- C4: for every valid bounding box and positive image size,
`pixel_to_lonlat` sends pixel `(0, 0)` exactly to `(west, north)` and pixel
`(width, height)` exactly to `(east, south)`. -/
theorem C4_pixel_to_lonlat_corners (w h : ℤ) (s we n e : ℝ)
    (hw : 0 < w) (hh : 0 < h) (hsn : s < n) (hwe : we < e) :
    pixel_to_lonlat 0 0 w h s we n e = some (we, n) ∧
    pixel_to_lonlat (w : ℝ) (h : ℝ) w h s we n e = some (e, s) := by
  have hsz : ¬(w ≤ 0 ∨ h ≤ 0) := by push_neg; exact ⟨hw, hh⟩
  have hb : ¬¬(s < n ∧ we < e) := not_not_intro ⟨hsn, hwe⟩
  have hwR : ((w : ℤ) : ℝ) ≠ 0 := Int.cast_ne_zero.mpr (by omega)
  have hhR : ((h : ℤ) : ℝ) ≠ 0 := Int.cast_ne_zero.mpr (by omega)
  constructor
  · simp only [pixel_to_lonlat, if_neg hsz, if_neg hb]
    norm_num
  · simp only [pixel_to_lonlat, if_neg hsz, if_neg hb, div_self hwR, div_self hhR]
    simp only [Option.some.injEq, Prod.mk.injEq]
    constructor <;> ring

/-- Witness for C4 at a concrete valid bbox and size. -/
theorem C4_pixel_to_lonlat_corners_witness :
    pixel_to_lonlat 0 0 2 3 0 0 1 1 = some (0, 1) ∧
    pixel_to_lonlat ((2 : ℤ) : ℝ) ((3 : ℤ) : ℝ) 2 3 0 0 1 1 = some (1, 0) :=
  C4_pixel_to_lonlat_corners 2 3 0 0 1 1 (by norm_num) (by norm_num)
    (by norm_num) (by norm_num)

end Satdist
